import Mathlib

/-!
Verification of the write-ingestion front-end of the `influxdb_iox` router
(deterministic sharding, the DML handler chain, schema validation, the
object-store garbage-collection checker, and the Arrow Flight handshake).

Pure functions of the source are embedded as Lean functions; stateful code is
embedded as explicit state passing.  Components of the repository whose source
is not available (only their callers and benchmarks are) are modelled from the
specification; each such definition says so in its doc comment.
-/

set_option maxRecDepth 8000
set_option maxHeartbeats 1000000

/-- Decidable equality for `Except`, so that witnesses over fallible
operations can be checked by `decide`. -/
instance {e a : Type} [DecidableEq e] [DecidableEq a] : DecidableEq (Except e a) := fun x y =>
  match x, y with
  | .ok v, .ok w =>
    if h : v = w then isTrue (by rw [h]) else isFalse (by intro hc; cases hc; exact h rfl)
  | .error v, .error w =>
    if h : v = w then isTrue (by rw [h]) else isFalse (by intro hc; cases hc; exact h rfl)
  | .ok _, .error _ => isFalse (by intro hc; cases hc)
  | .error _, .ok _ => isFalse (by intro hc; cases hc)

/-- Association-list lookup (first binding wins), used to model the various
name-keyed maps of the catalog, the namespace schema cache and the per-shard
queues. -/
def alookup {α β : Type} [DecidableEq α] : α → List (α × β) → Option β
  | _, [] => none
  | k, (k', v) :: rest => if k = k' then some v else alookup k rest

/-- Modelled from the spec: a stable, fixed-seed hash over a byte sequence
(spec §4.1 requires "any stable (non-randomized-per-process) hash function";
the concrete hash used by `router2/src/sharder.rs` is not under `src/`).  This
is an FNV-1a-style fold over 64-bit words. -/
def stableHash (bytes : List Nat) : Nat :=
  bytes.foldl (fun h b => ((h ^^^ b) * 1099511628211) % 2 ^ 64) 14695981039346656037

/-- Modelled from the spec: the key the sharder hashes is the byte sequence of
the concatenation namespace-name ++ table-name (spec §4.1). -/
def shardKey (tableName dbName : String) : List Nat :=
  (dbName ++ tableName).data.map Char.toNat

/-- Ordered-set insertion (ascending, duplicate-free), the building block of
the `BTreeSet` model. -/
def insertSorted (a : Nat) : List Nat → List Nat
  | [] => [a]
  | b :: rest =>
    if a < b then a :: b :: rest
    else if a = b then b :: rest
    else b :: insertSorted a rest

/-- The ascending enumeration of a set of shard identifiers given in arbitrary
order.  This embeds the `BTreeSet` collection in `init_write_buffer`
(`influxdb_iox/src/commands/run/router2.rs`): the set of sequencer ids is
iterated in ascending sorted order. -/
def sortedShards (ids : List Nat) : List Nat :=
  ids.foldr insertSorted []

theorem mem_insertSorted (a b : Nat) (l : List Nat) :
    a ∈ insertSorted b l ↔ a = b ∨ a ∈ l := by
  induction l with
  | nil => simp [insertSorted]
  | cons c rest ih =>
    by_cases h1 : b < c
    · simp [insertSorted, h1]
    · by_cases h2 : b = c
      · subst h2
        have heq : insertSorted b (b :: rest) = b :: rest := by
          simp [insertSorted]
        rw [heq]
        simp only [List.mem_cons]
        tauto
      · simp only [insertSorted, if_neg h1, if_neg h2, List.mem_cons, ih]
        tauto

theorem sorted_insertSorted (a : Nat) (l : List Nat)
    (h : List.Sorted (· < ·) l) : List.Sorted (· < ·) (insertSorted a l) := by
  induction l with
  | nil => simp [insertSorted]
  | cons c rest ih =>
    rw [List.sorted_cons] at h
    by_cases h1 : a < c
    · rw [insertSorted, if_pos h1, List.sorted_cons]
      refine ⟨?_, List.sorted_cons.mpr h⟩
      intro b hb
      rcases List.mem_cons.mp hb with hb | hb
      · exact hb ▸ h1
      · exact h1.trans (h.1 b hb)
    · by_cases h2 : a = c
      · rw [insertSorted, if_neg h1, if_pos h2, List.sorted_cons]
        exact h
      · rw [insertSorted, if_neg h1, if_neg h2, List.sorted_cons]
        refine ⟨?_, ih h.2⟩
        intro b hb
        rcases (mem_insertSorted b a rest).mp hb with hb | hb
        · subst hb
          omega
        · exact h.1 b hb

/-- Modelled from the spec: `router2::sharder::TableNamespaceSharder`, whose
source is not under `src/` (only its benchmark and its construction in
`router2.rs` are).  It holds the fixed shard registry in ascending order
(spec §4.1, §4.4). -/
structure TableNamespaceSharder where
  shards : List Nat
deriving DecidableEq

/-- Modelled from the spec: constructing a sharder from an enumeration of
shard identifiers (the `FromIterator` impl used by
`collect::<TableNamespaceSharder<_>>()` in `router2.rs`): the registry is the
set of the identifiers, enumerated ascending. -/
def TableNamespaceSharder.fromIter (ids : List Nat) : TableNamespaceSharder :=
  ⟨sortedShards ids⟩

/-- Modelled from the spec (§4.1): `shard(table_name, namespace_name)` hashes
the key, reduces modulo the number of shards and indexes the ascending shard
list.  `none` can only arise for an empty registry (which startup refuses to
build, see `initWriteBuffer`). -/
def TableNamespaceSharder.shard (s : TableNamespaceSharder)
    (tableName dbName : String) : Option Nat :=
  s.shards[stableHash (shardKey tableName dbName) % s.shards.length]?

theorem mem_sortedShards (ids : List Nat) (a : Nat) :
    a ∈ sortedShards ids ↔ a ∈ ids := by
  induction ids with
  | nil => simp [sortedShards]
  | cons b rest ih =>
    show a ∈ insertSorted b (sortedShards rest) ↔ _
    rw [mem_insertSorted, ih]
    simp

theorem sorted_sortedShards (ids : List Nat) :
    List.Sorted (· < ·) (sortedShards ids) := by
  induction ids with
  | nil => simp [sortedShards]
  | cons b rest ih => exact sorted_insertSorted b _ ih

theorem sortedShards_ne_nil (ids : List Nat) (h : ids ≠ []) :
    sortedShards ids ≠ [] := by
  match ids, h with
  | a :: rest, _ =>
    intro hnil
    have ha : a ∈ sortedShards (a :: rest) := by
      rw [mem_sortedShards]
      exact List.mem_cons_self a rest
    rw [hnil] at ha
    exact absurd ha (List.not_mem_nil a)

theorem sortedShards_eq_of_toFinset_eq (ids₁ ids₂ : List Nat)
    (h : ids₁.toFinset = ids₂.toFinset) :
    sortedShards ids₁ = sortedShards ids₂ := by
  have h1 := sorted_sortedShards ids₁
  have h2 := sorted_sortedShards ids₂
  have hperm : List.Perm (sortedShards ids₁) (sortedShards ids₂) := by
    refine List.perm_of_nodup_nodup_toFinset_eq h1.nodup h2.nodup (Finset.ext fun a => ?_)
    rw [List.mem_toFinset, List.mem_toFinset, mem_sortedShards, mem_sortedShards,
      ← List.mem_toFinset, ← List.mem_toFinset, h]
  haveI : IsAntisymm Nat (· < ·) := ⟨fun a b hab hba => absurd hba (Nat.not_lt.mpr hab.le)⟩
  exact List.eq_of_perm_of_sorted hperm h1 h2

/-- `C1` — Determinism of the sharder: the shard chosen for a (table,
namespace) key is the same across independently constructed sharder instances
built from the same registry; it is a pure function of the key and the
registry contents only. -/
theorem shard_deterministic (ids₁ ids₂ : List Nat) (t n : String)
    (h : ids₁.toFinset = ids₂.toFinset) :
    (TableNamespaceSharder.fromIter ids₁).shard t n
      = (TableNamespaceSharder.fromIter ids₂).shard t n := by
  unfold TableNamespaceSharder.fromIter
  rw [sortedShards_eq_of_toFinset_eq ids₁ ids₂ h]

/-- Witness for `C1` at a concrete registry given in two different
enumeration orders. -/
theorem shard_deterministic_witness :
    ([2, 0, 1] : List Nat).toFinset = ([0, 1, 2] : List Nat).toFinset ∧
      (TableNamespaceSharder.fromIter [2, 0, 1]).shard "cpu" "db1"
        = (TableNamespaceSharder.fromIter [0, 1, 2]).shard "cpu" "db1" :=
  ⟨by decide, shard_deterministic [2, 0, 1] [0, 1, 2] "cpu" "db1" (by decide)⟩

/-- `C2` — Totality of the sharder: over a non-empty registry, `shard` always
succeeds and the identifier it returns is exactly one valid element of the
registry. -/
theorem shard_total (ids : List Nat) (t n : String) (h : ids ≠ []) :
    ∃! k, (TableNamespaceSharder.fromIter ids).shard t n = some k ∧ k ∈ ids := by
  have hne := sortedShards_ne_nil ids h
  have hlen : 0 < (sortedShards ids).length := List.length_pos.mpr hne
  have hilt : stableHash (shardKey t n) % (sortedShards ids).length
      < (sortedShards ids).length := Nat.mod_lt _ hlen
  have hval : (TableNamespaceSharder.fromIter ids).shard t n
      = some ((sortedShards ids)[stableHash (shardKey t n) % (sortedShards ids).length]) := by
    simp [TableNamespaceSharder.shard, TableNamespaceSharder.fromIter,
      List.getElem?_eq_getElem hilt]
  refine ⟨(sortedShards ids)[stableHash (shardKey t n) % (sortedShards ids).length],
    ⟨hval, ?_⟩, ?_⟩
  · exact (mem_sortedShards ids _).mp (List.getElem_mem hilt)
  · intro y hy
    have := hy.1.symm.trans hval
    exact Option.some_injective _ this

/-- Witness for `C2` at the example registry of spec §8. -/
theorem shard_total_witness :
    ([0, 1, 2] : List Nat) ≠ [] ∧
      ∃! k, (TableNamespaceSharder.fromIter [0, 1, 2]).shard "cpu" "db1" = some k
        ∧ k ∈ ([0, 1, 2] : List Nat) :=
  ⟨by decide, shard_total [0, 1, 2] "cpu" "db1" (by decide)⟩

/-- The startup configuration consumed by the router2 `command`
(`influxdb_iox/src/commands/run/router2.rs`): the catalog's answer to the
kafka-topic lookup, and the broker's partition enumeration for the topic
(`write_buffer.sequencer_ids()`), in whatever order the broker reports it. -/
structure StartupConfig where
  topicId : Option Nat
  partitions : List Nat
deriving DecidableEq

inductive StartupError
  | unknownTopic
  | noPartitions
deriving DecidableEq

/-- Embeds `init_write_buffer` (`router2.rs` lines 143-176): the sequencer ids
are collected into an ordered set (`BTreeSet`) and enumerated ascending to
build the sharder.  The rejection of an empty registry is modelled from the
spec (§7: an undefined shard registry is fatal at startup; the sharder
constructor itself is not under `src/`). -/
def initWriteBuffer (cfg : StartupConfig) : Except StartupError (List Nat) :=
  let shards := sortedShards cfg.partitions
  if shards.isEmpty then .error .noPartitions else .ok shards

/-- `C6` — The shard registry handed to the sharder at startup is enumerated
in ascending (strictly sorted) order, contains exactly the broker's partition
identifiers, and is the same list regardless of the order in which the broker
enumerated the partitions (so the registry is fixed by its contents alone). -/
theorem initWriteBuffer_sorted (cfg : StartupConfig) (shards : List Nat)
    (h : initWriteBuffer cfg = .ok shards) :
    List.Sorted (· < ·) shards ∧ (∀ a, a ∈ shards ↔ a ∈ cfg.partitions) ∧
      ∀ cfg' shards', cfg.partitions.toFinset = cfg'.partitions.toFinset →
        initWriteBuffer cfg' = .ok shards' → shards = shards' := by
  have hsh : shards = sortedShards cfg.partitions := by
    by_cases hemp : (sortedShards cfg.partitions).isEmpty
    · simp [initWriteBuffer, hemp] at h
    · simp [initWriteBuffer, hemp] at h
      exact h.symm
  refine ⟨?_, ?_, ?_⟩
  · rw [hsh]
    exact sorted_sortedShards _
  · intro a
    rw [hsh]
    exact mem_sortedShards _ a
  · intro cfg' shards' hset h'
    have hsh' : shards' = sortedShards cfg'.partitions := by
      by_cases hemp : (sortedShards cfg'.partitions).isEmpty
      · simp [initWriteBuffer, hemp] at h'
      · simp [initWriteBuffer, hemp] at h'
        exact h'.symm
    rw [hsh, hsh']
    exact sortedShards_eq_of_toFinset_eq _ _ hset

/-- Witness for `C6`: a concrete unordered partition enumeration yields the
ascending registry. -/
theorem initWriteBuffer_sorted_witness :
    initWriteBuffer ⟨some 7, [2, 0, 1]⟩ = .ok [0, 1, 2] ∧
      List.Sorted (· < ·) [0, 1, 2] :=
  ⟨by decide, (initWriteBuffer_sorted ⟨some 7, [2, 0, 1]⟩ [0, 1, 2] (by decide)).1⟩

/-- Modelled from the spec (§3): the logical column types of the data model
(`data_types::ColumnType` is not under `src/`). -/
inductive ColumnType
  | tag
  | i64
  | u64
  | f64
  | bool
  | string
  | time
deriving DecidableEq

/-- A namespace (or table) schema: the set of known (column name, type)
pairs, spec §3. -/
abbrev Schema := List (String × ColumnType)

/-- Modelled from the spec (§3, §6): a write request, a batch of rows for one
(namespace, table) pair; each row carries named, typed field/tag values (the
values themselves are irrelevant to the routing and validation logic). -/
structure Write where
  dbName : String
  tableName : String
  rows : List (List (String × ColumnType))
deriving DecidableEq

/-- The error taxonomy of the write path, spec §7. -/
inductive DmlError
  | catalogUnavailable
  | schemaConflict
  | writeBuffer
  | noShards
deriving DecidableEq

/-- Modelled from the spec (§2, §6): the transactional metadata store
(`iox_catalog` is not under `src/`).  `available` models reachability of the
store; the maps hold the committed namespaces, tables and per-namespace
schemas. -/
structure Catalog where
  available : Bool
  namespaces : List (String × Nat)
  tables : List ((Nat × String) × Nat)
  schemas : List (String × Schema)
  nextId : Nat
deriving DecidableEq

/-- The schema the catalog has committed for a namespace (empty when the
namespace has no columns yet). -/
def catalogSchema (c : Catalog) (n : String) : Schema :=
  (alookup n c.schemas).getD []

/-- Modelled from the spec (§6): `get_or_create_namespace` — atomic
create-or-get-existing, safe under concurrent callers. -/
def getOrCreateNamespace (c : Catalog) (n : String) : Except DmlError (Nat × Catalog) :=
  if c.available = false then .error .catalogUnavailable
  else
    match alookup n c.namespaces with
    | some i => .ok (i, c)
    | none =>
      .ok (c.nextId,
        { c with namespaces := (n, c.nextId) :: c.namespaces, nextId := c.nextId + 1 })

/-- Modelled from the spec (§6): `get_or_create_table(name, namespace_id)`. -/
def getOrCreateTable (c : Catalog) (nsId : Nat) (t : String) :
    Except DmlError (Nat × Catalog) :=
  if c.available = false then .error .catalogUnavailable
  else
    match alookup (nsId, t) c.tables with
    | some i => .ok (i, c)
    | none =>
      .ok (c.nextId,
        { c with tables := ((nsId, t), c.nextId) :: c.tables, nextId := c.nextId + 1 })

/-- Merging a list of proposed columns into a schema: a proposed column whose
name is already bound to a different type is a schema conflict; unknown
columns are appended.  Modelled from the spec (§3, §4.2 stage 2). -/
def mergeColumns (sch : Schema) : List (String × ColumnType) → Except DmlError Schema
  | [] => .ok sch
  | (c, ty) :: rest =>
    match alookup c sch with
    | some ty' => if ty = ty' then mergeColumns sch rest else .error .schemaConflict
    | none => mergeColumns (sch ++ [(c, ty)]) rest

/-- Modelled from the spec (§6): `get_or_create_columns` — atomically merge
proposed columns into the namespace's committed schema, failing the whole call
on a type conflict. -/
def getOrCreateColumns (c : Catalog) (n : String) (cols : List (String × ColumnType)) :
    Except DmlError (Schema × Catalog) :=
  if c.available = false then .error .catalogUnavailable
  else
    match mergeColumns (catalogSchema c n) cols with
    | .error e => .error e
    | .ok sch => .ok (sch, { c with schemas := (n, sch) :: c.schemas })

/-- The in-memory state one router instance threads through its handler chain:
the shared catalog, the namespace schema cache, the fixed shard registry, the
per-shard queues of enqueued writes, and broker reachability (spec §2, §5). -/
structure RouterState where
  catalog : Catalog
  cache : List (String × Schema)
  shards : List Nat
  queues : List (Nat × List Write)
  brokerUp : Bool
deriving DecidableEq

/-- The set of (column name, type) pairs implied by a write: the concatenation
of its rows' columns (spec §4.2 stage 2). -/
def writeColumns (w : Write) : List (String × ColumnType) :=
  w.rows.foldr (· ++ ·) []

/-- Modelled from the spec (§4.2 stage 1): the `NamespaceAutocreation` handler
(`router2::dml_handlers`, not under `src/`, constructed in `router2.rs` lines
117-124) calls the catalog's get-or-create for the write's namespace and then
for its table, aborting the write on a catalog error.  On error it returns the
state as committed so far (side effects are cumulative, spec §4.2). -/
def autocreate (st : RouterState) (w : Write) : RouterState × Except DmlError Write :=
  match getOrCreateNamespace st.catalog w.dbName with
  | .error e => (st, .error e)
  | .ok (nsId, c₁) =>
    match getOrCreateTable c₁ nsId w.tableName with
    | .error e => ({ st with catalog := c₁ }, .error e)
    | .ok (_, c₂) => ({ st with catalog := c₂ }, .ok w)

/-- The schema the local cache holds for the write's namespace (empty when the
namespace is not cached). -/
def cachedSchemaOf (st : RouterState) (w : Write) : Schema :=
  (alookup w.dbName st.cache).getD []

/-- A proposed column whose name the cache already binds to a different type
(spec §4.2 stage 2: a column already known with an incompatible type). -/
def conflictsWithCache (cached : Schema) (p : String × ColumnType) : Bool :=
  match alookup p.1 cached with
  | some ty => decide (ty ≠ p.2)
  | none => false

/-- A proposed column whose name the cache does not know. -/
def unknownToCache (cached : Schema) (p : String × ColumnType) : Bool :=
  (alookup p.1 cached).isNone

/-- Modelled from the spec (§4.2 stage 2, §4.3): the `SchemaValidator` handler
(`router2::dml_handlers`, not under `src/`, constructed in `router2.rs` line
97).  Columns already known to the cache with a different type are rejected
with a schema conflict; columns unknown to the cache round-trip to the catalog
to be merged, and the cache is updated with the merged schema. -/
def validate (st : RouterState) (w : Write) : RouterState × Except DmlError Write :=
  match (writeColumns w).find? (conflictsWithCache (cachedSchemaOf st w)) with
  | some _ => (st, .error .schemaConflict)
  | none =>
    if ((writeColumns w).filter (unknownToCache (cachedSchemaOf st w))).isEmpty then
      (st, .ok w)
    else
      match getOrCreateColumns st.catalog w.dbName
          ((writeColumns w).filter (unknownToCache (cachedSchemaOf st w))) with
      | .error e => (st, .error e)
      | .ok (merged, c') =>
        ({ st with catalog := c', cache := (w.dbName, merged) :: st.cache }, .ok w)

/-- Modelled from the spec (§4.2 stage 3, §4.4): the `ShardedWriteBuffer`
handler (`router2::dml_handlers`, not under `src/`, constructed in
`init_write_buffer`): resolve the shard with the sharder over the fixed
registry and forward the write to the shard's producer, which appends it to
the shard's queue and returns the shard identifier. -/
def enqueue (st : RouterState) (w : Write) : RouterState × Except DmlError Nat :=
  match TableNamespaceSharder.shard ⟨st.shards⟩ w.tableName w.dbName with
  | none => (st, .error .noShards)
  | some k =>
    if st.brokerUp = false then (st, .error .writeBuffer)
    else
      ({ st with queues := (k, ((alookup k st.queues).getD []) ++ [w]) :: st.queues },
        .ok k)

/-- The stages of the DML handler chain, in their required order (spec §4.2). -/
inductive Stage
  | autocreate
  | validate
  | enqueue
deriving DecidableEq

/-- The composed DML handler chain (spec §2, §4.2): auto-create, then
validate/merge schema, then shard + enqueue, each stage consuming the previous
stage's output and the first error short-circuiting the rest.  The returned
trace records which stages ran, in order. -/
def handle (st : RouterState) (w : Write) :
    RouterState × Except DmlError Nat × List Stage :=
  match autocreate st w with
  | (st₁, .error e) => (st₁, .error e, [Stage.autocreate])
  | (st₁, .ok w₁) =>
    match validate st₁ w₁ with
    | (st₂, .error e) => (st₂, .error e, [Stage.autocreate, Stage.validate])
    | (st₂, .ok w₂) =>
      match enqueue st₂ w₂ with
      | (st₃, r) => (st₃, r, [Stage.autocreate, Stage.validate, Stage.enqueue])

theorem handle_eq_of_ac_error (st : RouterState) (w : Write) (st₁ : RouterState)
    (e : DmlError) (h : autocreate st w = (st₁, .error e)) :
    handle st w = (st₁, .error e, [Stage.autocreate]) := by
  simp [handle, h]

theorem handle_eq_of_val_error (st : RouterState) (w : Write)
    (st₁ st₂ : RouterState) (w₁ : Write) (e : DmlError)
    (hac : autocreate st w = (st₁, .ok w₁)) (hval : validate st₁ w₁ = (st₂, .error e)) :
    handle st w = (st₂, .error e, [Stage.autocreate, Stage.validate]) := by
  simp [handle, hac, hval]

theorem handle_eq_of_val_ok (st : RouterState) (w : Write)
    (st₁ st₂ : RouterState) (w₁ w₂ : Write)
    (hac : autocreate st w = (st₁, .ok w₁)) (hval : validate st₁ w₁ = (st₂, .ok w₂)) :
    handle st w = ((enqueue st₂ w₂).1, (enqueue st₂ w₂).2,
      [Stage.autocreate, Stage.validate, Stage.enqueue]) := by
  simp [handle, hac, hval]

/-- `C3` — The DML handler chain applies its stages in the fixed order
auto-creation, schema validation, shard/enqueue: the executed trace is always
a prefix of that order, an error in a stage short-circuits the chain (no later
stage runs and the error propagates), and when the first two stages succeed
the enqueue stage receives exactly the validation stage's output. -/
theorem handle_stage_order (st : RouterState) (w : Write) :
    List.IsPrefix (handle st w).2.2 [Stage.autocreate, Stage.validate, Stage.enqueue]
    ∧ (∀ e, (autocreate st w).2 = .error e →
        handle st w = ((autocreate st w).1, .error e, [Stage.autocreate]))
    ∧ (∀ st₁ w₁ e, autocreate st w = (st₁, .ok w₁) → (validate st₁ w₁).2 = .error e →
        handle st w = ((validate st₁ w₁).1, .error e, [Stage.autocreate, Stage.validate]))
    ∧ (∀ st₁ w₁ st₂ w₂, autocreate st w = (st₁, .ok w₁) → validate st₁ w₁ = (st₂, .ok w₂) →
        handle st w = ((enqueue st₂ w₂).1, (enqueue st₂ w₂).2,
          [Stage.autocreate, Stage.validate, Stage.enqueue])) := by
  refine ⟨?_, ?_, ?_, ?_⟩
  · rcases hac : autocreate st w with ⟨st₁, r₁⟩
    cases r₁ with
    | error e =>
      rw [handle_eq_of_ac_error st w st₁ e hac]
      exact ⟨[Stage.validate, Stage.enqueue], rfl⟩
    | ok w₁ =>
      rcases hval : validate st₁ w₁ with ⟨st₂, r₂⟩
      cases r₂ with
      | error e =>
        rw [handle_eq_of_val_error st w st₁ st₂ w₁ e hac hval]
        exact ⟨[Stage.enqueue], rfl⟩
      | ok w₂ =>
        rw [handle_eq_of_val_ok st w st₁ st₂ w₁ w₂ hac hval]
  · intro e he
    have h' : autocreate st w = ((autocreate st w).1, .error e) := Prod.ext rfl he
    exact handle_eq_of_ac_error st w _ e h'
  · intro st₁ w₁ e hac hval
    have h' : validate st₁ w₁ = ((validate st₁ w₁).1, .error e) := Prod.ext rfl hval
    exact handle_eq_of_val_error st w st₁ _ w₁ e hac h'
  · intro st₁ w₁ st₂ w₂ hac hval
    exact handle_eq_of_val_ok st w st₁ st₂ w₁ w₂ hac hval

/-- A router state whose catalog is unreachable, over the example registry. -/
def stDown : RouterState :=
  ⟨⟨false, [], [], [], 0⟩, [], [0, 1, 2], [], true⟩

/-- A write of one row with one integer field. -/
def w0 : Write :=
  ⟨"db1", "cpu", [[("f", ColumnType.i64)]]⟩

/-- Witness for `C3`: with an unreachable catalog the first stage errors and
the chain stops after it. -/
theorem handle_stage_order_witness :
    handle stDown w0
      = ((autocreate stDown w0).1, .error DmlError.catalogUnavailable, [Stage.autocreate]) :=
  (handle_stage_order stDown w0).2.1 DmlError.catalogUnavailable (by decide)

theorem alookup_append_left {α β : Type} [DecidableEq α] (k : α)
    (l l' : List (α × β)) (v : β) (h : alookup k l = some v) :
    alookup k (l ++ l') = some v := by
  induction l with
  | nil => simp [alookup] at h
  | cons p rest ih =>
    rcases p with ⟨k', v'⟩
    by_cases hk : k = k'
    · rw [List.cons_append, alookup, if_pos hk]
      rw [alookup, if_pos hk] at h
      exact h
    · rw [List.cons_append, alookup, if_neg hk]
      rw [alookup, if_neg hk] at h
      exact ih h

theorem mergeColumns_error (cols : List (String × ColumnType)) (sch : Schema)
    (e : DmlError) (h : mergeColumns sch cols = .error e) : e = .schemaConflict := by
  induction cols generalizing sch with
  | nil => simp [mergeColumns] at h
  | cons p rest ih =>
    rcases p with ⟨c, ty⟩
    rw [mergeColumns] at h
    cases hl : alookup c sch with
    | some ty' =>
      rw [hl] at h
      simp only [] at h
      by_cases hty : ty = ty'
      · rw [if_pos hty] at h
        exact ih _ h
      · rw [if_neg hty] at h
        cases h
        rfl
    | none =>
      rw [hl] at h
      simp only [] at h
      exact ih _ h

theorem mergeColumns_preserve (cols : List (String × ColumnType)) (sch sch' : Schema)
    (c : String) (ty : ColumnType) (h : mergeColumns sch cols = .ok sch')
    (hc : alookup c sch = some ty) : alookup c sch' = some ty := by
  induction cols generalizing sch with
  | nil =>
    rw [mergeColumns] at h
    cases h
    exact hc
  | cons p rest ih =>
    rcases p with ⟨c₀, ty₀⟩
    rw [mergeColumns] at h
    cases hl : alookup c₀ sch with
    | some ty' =>
      rw [hl] at h
      simp only [] at h
      by_cases hty : ty₀ = ty'
      · rw [if_pos hty] at h
        exact ih _ h hc
      · rw [if_neg hty] at h
        cases h
    | none =>
      rw [hl] at h
      simp only [] at h
      exact ih _ h (alookup_append_left c sch [(c₀, ty₀)] ty hc)

theorem mergeColumns_conflict (cols : List (String × ColumnType)) (sch : Schema)
    (c : String) (ty ty' : ColumnType) (hc : alookup c sch = some ty)
    (hmem : (c, ty') ∈ cols) (hne : ty' ≠ ty) :
    mergeColumns sch cols = .error .schemaConflict := by
  induction cols generalizing sch with
  | nil => cases hmem
  | cons p rest ih =>
    rcases p with ⟨c₀, ty₀⟩
    rcases List.mem_cons.mp hmem with hp | hp
    · cases hp
      rw [mergeColumns, hc]
      simp only []
      rw [if_neg hne]
    · rw [mergeColumns]
      cases hl : alookup c₀ sch with
      | some tyE =>
        simp only []
        by_cases hty : ty₀ = tyE
        · rw [if_pos hty]
          exact ih _ hc hp
        · rw [if_neg hty]
      | none =>
        simp only []
        exact ih _ (alookup_append_left c sch [(c₀, ty₀)] ty hc) hp

theorem mem_writeColumns (w : Write) (p : String × ColumnType) :
    p ∈ writeColumns w ↔ ∃ row ∈ w.rows, p ∈ row := by
  unfold writeColumns
  induction w.rows with
  | nil => simp
  | cons r rest ih =>
    simp only [List.foldr, List.mem_append, ih, List.mem_cons]
    constructor
    · rintro (hp | ⟨row, hrow, hp⟩)
      · exact ⟨r, Or.inl rfl, hp⟩
      · exact ⟨row, Or.inr hrow, hp⟩
    · rintro ⟨row, hrow | hrow, hp⟩
      · subst hrow
        exact Or.inl hp
      · exact Or.inr ⟨row, hrow, hp⟩

theorem getOrCreateNamespace_ok (c : Catalog) (n : String) (i : Nat) (c' : Catalog)
    (h : getOrCreateNamespace c n = .ok (i, c')) :
    c'.available = c.available ∧ c'.schemas = c.schemas ∧ c'.tables = c.tables
      ∧ alookup n c'.namespaces = some i
      ∧ ∀ k v, alookup k c.namespaces = some v → alookup k c'.namespaces = some v := by
  rw [getOrCreateNamespace] at h
  by_cases ha : c.available = false
  · rw [if_pos ha] at h
    cases h
  · rw [if_neg ha] at h
    cases hl : alookup n c.namespaces with
    | some j =>
      rw [hl] at h
      simp only [] at h
      cases h
      exact ⟨rfl, rfl, rfl, hl, fun k v hv => hv⟩
    | none =>
      rw [hl] at h
      simp only [] at h
      cases h
      refine ⟨rfl, rfl, rfl, ?_, ?_⟩
      · rw [alookup, if_pos rfl]
      · intro k v hv
        have hk : k ≠ n := by
          intro hk
          rw [hk, hl] at hv
          cases hv
        rw [alookup, if_neg hk]
        exact hv

theorem getOrCreateNamespace_err (c : Catalog) (n : String) (e : DmlError)
    (h : getOrCreateNamespace c n = .error e) :
    e = .catalogUnavailable ∧ c.available = false := by
  rw [getOrCreateNamespace] at h
  by_cases ha : c.available = false
  · rw [if_pos ha] at h
    cases h
    exact ⟨rfl, ha⟩
  · rw [if_neg ha] at h
    cases hl : alookup n c.namespaces with
    | some j =>
      rw [hl] at h
      simp only [] at h
      cases h
    | none =>
      rw [hl] at h
      simp only [] at h
      cases h

theorem getOrCreateTable_ok (c : Catalog) (nsId : Nat) (t : String) (i : Nat) (c' : Catalog)
    (h : getOrCreateTable c nsId t = .ok (i, c')) :
    c'.available = c.available ∧ c'.schemas = c.schemas ∧ c'.namespaces = c.namespaces
      ∧ alookup (nsId, t) c'.tables = some i
      ∧ ∀ k v, alookup k c.tables = some v → alookup k c'.tables = some v := by
  rw [getOrCreateTable] at h
  by_cases ha : c.available = false
  · rw [if_pos ha] at h
    cases h
  · rw [if_neg ha] at h
    cases hl : alookup (nsId, t) c.tables with
    | some j =>
      rw [hl] at h
      simp only [] at h
      cases h
      exact ⟨rfl, rfl, rfl, hl, fun k v hv => hv⟩
    | none =>
      rw [hl] at h
      simp only [] at h
      cases h
      refine ⟨rfl, rfl, rfl, ?_, ?_⟩
      · rw [alookup, if_pos rfl]
      · intro k v hv
        have hk : k ≠ (nsId, t) := by
          intro hk
          rw [hk, hl] at hv
          cases hv
        rw [alookup, if_neg hk]
        exact hv

theorem getOrCreateTable_err (c : Catalog) (nsId : Nat) (t : String) (e : DmlError)
    (h : getOrCreateTable c nsId t = .error e) :
    e = .catalogUnavailable ∧ c.available = false := by
  rw [getOrCreateTable] at h
  by_cases ha : c.available = false
  · rw [if_pos ha] at h
    cases h
    exact ⟨rfl, ha⟩
  · rw [if_neg ha] at h
    cases hl : alookup (nsId, t) c.tables with
    | some j =>
      rw [hl] at h
      simp only [] at h
      cases h
    | none =>
      rw [hl] at h
      simp only [] at h
      cases h

theorem getOrCreateColumns_ok (c : Catalog) (n : String)
    (cols : List (String × ColumnType)) (sch : Schema) (c' : Catalog)
    (h : getOrCreateColumns c n cols = .ok (sch, c')) :
    c'.available = c.available ∧ c'.namespaces = c.namespaces ∧ c'.tables = c.tables
      ∧ mergeColumns (catalogSchema c n) cols = .ok sch
      ∧ c'.schemas = (n, sch) :: c.schemas := by
  rw [getOrCreateColumns] at h
  by_cases ha : c.available = false
  · rw [if_pos ha] at h
    cases h
  · rw [if_neg ha] at h
    cases hm : mergeColumns (catalogSchema c n) cols with
    | error e =>
      rw [hm] at h
      simp only [] at h
      cases h
    | ok sch₀ =>
      rw [hm] at h
      simp only [] at h
      cases h
      exact ⟨rfl, rfl, rfl, rfl, rfl⟩

theorem getOrCreateColumns_err (c : Catalog) (n : String)
    (cols : List (String × ColumnType)) (e : DmlError)
    (h : getOrCreateColumns c n cols = .error e) :
    (e = .catalogUnavailable ∧ c.available = false) ∨ e = .schemaConflict := by
  rw [getOrCreateColumns] at h
  by_cases ha : c.available = false
  · rw [if_pos ha] at h
    cases h
    exact Or.inl ⟨rfl, ha⟩
  · rw [if_neg ha] at h
    cases hm : mergeColumns (catalogSchema c n) cols with
    | error e₀ =>
      rw [hm] at h
      simp only [] at h
      cases h
      exact Or.inr (mergeColumns_error _ _ _ hm)
    | ok sch₀ =>
      rw [hm] at h
      simp only [] at h
      cases h

theorem autocreate_shape (st : RouterState) (w : Write) (st' : RouterState)
    (r : Except DmlError Write) (h : autocreate st w = (st', r)) :
    st'.cache = st.cache ∧ st'.shards = st.shards ∧ st'.queues = st.queues
      ∧ st'.brokerUp = st.brokerUp ∧ st'.catalog.schemas = st.catalog.schemas
      ∧ st'.catalog.available = st.catalog.available := by
  rw [autocreate] at h
  cases hns : getOrCreateNamespace st.catalog w.dbName with
  | error e =>
    rw [hns] at h
    simp only [] at h
    cases h
    exact ⟨rfl, rfl, rfl, rfl, rfl, rfl⟩
  | ok p =>
    rcases p with ⟨nsId, c₁⟩
    rw [hns] at h
    simp only [] at h
    rcases getOrCreateNamespace_ok _ _ _ _ hns with ⟨hav₁, hsch₁, _, _, _⟩
    cases ht : getOrCreateTable c₁ nsId w.tableName with
    | error e =>
      rw [ht] at h
      simp only [] at h
      cases h
      exact ⟨rfl, rfl, rfl, rfl, hsch₁, hav₁⟩
    | ok q =>
      rcases q with ⟨tId, c₂⟩
      rw [ht] at h
      simp only [] at h
      cases h
      rcases getOrCreateTable_ok _ _ _ _ _ ht with ⟨hav₂, hsch₂, _, _, _⟩
      exact ⟨rfl, rfl, rfl, rfl, hsch₂.trans hsch₁, hav₂.trans hav₁⟩

theorem autocreate_ok_of_available (st : RouterState) (w : Write)
    (h : st.catalog.available = true) : (autocreate st w).2 = .ok w := by
  rw [autocreate]
  cases hns : getOrCreateNamespace st.catalog w.dbName with
  | error e =>
    have := (getOrCreateNamespace_err _ _ _ hns).2
    rw [h] at this
    cases this
  | ok p =>
    rcases p with ⟨nsId, c₁⟩
    simp only []
    have hav₁ : c₁.available = true :=
      ((getOrCreateNamespace_ok _ _ _ _ hns).1).trans h
    cases ht : getOrCreateTable c₁ nsId w.tableName with
    | error e =>
      have := (getOrCreateTable_err _ _ _ _ ht).2
      rw [hav₁] at this
      cases this
    | ok q =>
      rcases q with ⟨tId, c₂⟩
      simp only []

theorem autocreate_error_kind (st : RouterState) (w : Write) (st' : RouterState)
    (e : DmlError) (h : autocreate st w = (st', .error e)) : e = .catalogUnavailable := by
  rw [autocreate] at h
  cases hns : getOrCreateNamespace st.catalog w.dbName with
  | error e₀ =>
    rw [hns] at h
    simp only [] at h
    cases h
    exact (getOrCreateNamespace_err _ _ _ hns).1
  | ok p =>
    rcases p with ⟨nsId, c₁⟩
    rw [hns] at h
    simp only [] at h
    cases ht : getOrCreateTable c₁ nsId w.tableName with
    | error e₀ =>
      rw [ht] at h
      simp only [] at h
      cases h
      exact (getOrCreateTable_err _ _ _ _ ht).1
    | ok q =>
      rcases q with ⟨tId, c₂⟩
      rw [ht] at h
      simp only [] at h
      cases h

theorem validate_err (st : RouterState) (w : Write) (st' : RouterState)
    (e : DmlError) (h : validate st w = (st', .error e)) :
    st' = st ∧ (e = .schemaConflict ∨ (e = .catalogUnavailable ∧ st.catalog.available = false)) := by
  rw [validate] at h
  cases hf : (writeColumns w).find? (conflictsWithCache (cachedSchemaOf st w)) with
  | some p =>
    rw [hf] at h
    simp only [] at h
    cases h
    exact ⟨rfl, Or.inl rfl⟩
  | none =>
    rw [hf] at h
    simp only [] at h
    by_cases hemp : ((writeColumns w).filter (unknownToCache (cachedSchemaOf st w))).isEmpty
    · rw [if_pos hemp] at h
      cases h
    · rw [if_neg hemp] at h
      cases hg : getOrCreateColumns st.catalog w.dbName
          ((writeColumns w).filter (unknownToCache (cachedSchemaOf st w))) with
      | error e₀ =>
        rw [hg] at h
        simp only [] at h
        cases h
        rcases getOrCreateColumns_err _ _ _ _ hg with h1 | h1
        · exact ⟨rfl, Or.inr h1⟩
        · exact ⟨rfl, Or.inl h1⟩
      | ok q =>
        rcases q with ⟨merged, c'⟩
        rw [hg] at h
        simp only [] at h
        cases h

theorem validate_shape (st : RouterState) (w : Write) (st' : RouterState)
    (r : Except DmlError Write) (h : validate st w = (st', r)) :
    st'.shards = st.shards ∧ st'.queues = st.queues ∧ st'.brokerUp = st.brokerUp
      ∧ st'.catalog.available = st.catalog.available := by
  rw [validate] at h
  cases hf : (writeColumns w).find? (conflictsWithCache (cachedSchemaOf st w)) with
  | some p =>
    rw [hf] at h
    simp only [] at h
    cases h
    exact ⟨rfl, rfl, rfl, rfl⟩
  | none =>
    rw [hf] at h
    simp only [] at h
    by_cases hemp : ((writeColumns w).filter (unknownToCache (cachedSchemaOf st w))).isEmpty
    · rw [if_pos hemp] at h
      cases h
      exact ⟨rfl, rfl, rfl, rfl⟩
    · rw [if_neg hemp] at h
      cases hg : getOrCreateColumns st.catalog w.dbName
          ((writeColumns w).filter (unknownToCache (cachedSchemaOf st w))) with
      | error e₀ =>
        rw [hg] at h
        simp only [] at h
        cases h
        exact ⟨rfl, rfl, rfl, rfl⟩
      | ok q =>
        rcases q with ⟨merged, c'⟩
        rw [hg] at h
        simp only [] at h
        cases h
        exact ⟨rfl, rfl, rfl, (getOrCreateColumns_ok _ _ _ _ _ hg).1⟩

theorem validate_preserves_schema (st : RouterState) (w : Write) (st' : RouterState)
    (r : Except DmlError Write) (n c : String) (ty : ColumnType)
    (h : validate st w = (st', r))
    (hb : alookup c (catalogSchema st.catalog n) = some ty) :
    alookup c (catalogSchema st'.catalog n) = some ty := by
  rw [validate] at h
  cases hf : (writeColumns w).find? (conflictsWithCache (cachedSchemaOf st w)) with
  | some p =>
    rw [hf] at h
    simp only [] at h
    cases h
    exact hb
  | none =>
    rw [hf] at h
    simp only [] at h
    by_cases hemp : ((writeColumns w).filter (unknownToCache (cachedSchemaOf st w))).isEmpty
    · rw [if_pos hemp] at h
      cases h
      exact hb
    · rw [if_neg hemp] at h
      cases hg : getOrCreateColumns st.catalog w.dbName
          ((writeColumns w).filter (unknownToCache (cachedSchemaOf st w))) with
      | error e₀ =>
        rw [hg] at h
        simp only [] at h
        cases h
        exact hb
      | ok q =>
        rcases q with ⟨merged, c'⟩
        rw [hg] at h
        simp only [] at h
        cases h
        rcases getOrCreateColumns_ok _ _ _ _ _ hg with ⟨_, _, _, hm, hcs⟩
        show alookup c (catalogSchema c' n) = some ty
        unfold catalogSchema
        rw [hcs]
        by_cases hn : n = w.dbName
        · subst hn
          rw [alookup, if_pos rfl]
          show alookup c merged = some ty
          exact mergeColumns_preserve _ _ _ _ _ hm hb
        · rw [alookup, if_neg hn]
          exact hb

/-- Cache coherence (spec §3, §4.3): every column the local namespace schema
cache holds was merged from the catalog, so it agrees with the catalog's
committed schema.  This is the reachable-state invariant under which the
schema-conflict guarantees are stated. -/
def cacheOk (st : RouterState) : Prop :=
  ∀ n sch, alookup n st.cache = some sch →
    ∀ c ty, alookup c sch = some ty → alookup c (catalogSchema st.catalog n) = some ty

theorem validate_conflict (st : RouterState) (w : Write) (c : String) (ty ty' : ColumnType)
    (hav : st.catalog.available = true) (hcache : cacheOk st)
    (hsch : alookup c (catalogSchema st.catalog w.dbName) = some ty)
    (hcol : (c, ty') ∈ writeColumns w) (hne : ty' ≠ ty) :
    validate st w = (st, .error .schemaConflict) := by
  rw [validate]
  cases hf : (writeColumns w).find? (conflictsWithCache (cachedSchemaOf st w)) with
  | some p => rfl
  | none =>
    have hpred := List.find?_eq_none.mp hf _ hcol
    have hnone : alookup c (cachedSchemaOf st w) = none := by
      cases hlc : alookup c (cachedSchemaOf st w) with
      | none => rfl
      | some tyC =>
        exfalso
        have hcons : conflictsWithCache (cachedSchemaOf st w) (c, ty') = decide (tyC ≠ ty') := by
          simp [conflictsWithCache, hlc]
        rw [hcons] at hpred
        simp at hpred
        have hsome : ∃ sch, alookup w.dbName st.cache = some sch
            ∧ cachedSchemaOf st w = sch := by
          rw [cachedSchemaOf] at hlc ⊢
          cases hcl : alookup w.dbName st.cache with
          | none =>
            rw [hcl] at hlc
            simp [alookup] at hlc
          | some sch =>
            exact ⟨sch, rfl, rfl⟩
        rcases hsome with ⟨sch, hcl, hcs⟩
        have hcat := hcache w.dbName sch hcl c tyC (hcs ▸ hlc)
        rw [hsch] at hcat
        injection hcat with hty
        subst hty
        exact hne hpred.symm
    have hmem : (c, ty') ∈ (writeColumns w).filter (unknownToCache (cachedSchemaOf st w)) := by
      rw [List.mem_filter]
      refine ⟨hcol, ?_⟩
      simp [unknownToCache, hnone]
    have hemp : ((writeColumns w).filter (unknownToCache (cachedSchemaOf st w))).isEmpty
        = false := by
      cases hfl : (writeColumns w).filter (unknownToCache (cachedSchemaOf st w)) with
      | nil =>
        rw [hfl] at hmem
        cases hmem
      | cons a l =>
        rfl
    have hcond : ¬(((writeColumns w).filter (unknownToCache (cachedSchemaOf st w))).isEmpty
        = true) := by
      rw [hemp]
      exact Bool.false_ne_true
    simp only []
    rw [if_neg hcond]
    have hg : getOrCreateColumns st.catalog w.dbName
        ((writeColumns w).filter (unknownToCache (cachedSchemaOf st w)))
        = .error .schemaConflict := by
      rw [getOrCreateColumns]
      have hnav : ¬(st.catalog.available = false) := by
        rw [hav]
        simp
      rw [if_neg hnav]
      rw [mergeColumns_conflict _ _ c ty ty' hsch hmem hne]
    rw [hg]

theorem shard_isSome (l : List Nat) (t n : String) (h : l ≠ []) :
    ∃ k, TableNamespaceSharder.shard ⟨l⟩ t n = some k := by
  have hlen : 0 < l.length := List.length_pos.mpr h
  have hlt : stableHash (shardKey t n) % l.length < l.length := Nat.mod_lt _ hlen
  exact ⟨l[stableHash (shardKey t n) % l.length],
    by simp [TableNamespaceSharder.shard, List.getElem?_eq_getElem hlt]⟩

theorem enqueue_shape (st : RouterState) (w : Write) (st' : RouterState)
    (r : Except DmlError Nat) (h : enqueue st w = (st', r)) :
    st'.catalog = st.catalog ∧ st'.cache = st.cache ∧ st'.shards = st.shards
      ∧ st'.brokerUp = st.brokerUp := by
  rw [enqueue] at h
  cases hs : TableNamespaceSharder.shard ⟨st.shards⟩ w.tableName w.dbName with
  | none =>
    rw [hs] at h
    simp only [] at h
    cases h
    exact ⟨rfl, rfl, rfl, rfl⟩
  | some k =>
    rw [hs] at h
    simp only [] at h
    by_cases hb : st.brokerUp = false
    · rw [if_pos hb] at h
      cases h
      exact ⟨rfl, rfl, rfl, rfl⟩
    · rw [if_neg hb] at h
      cases h
      exact ⟨rfl, rfl, rfl, rfl⟩

theorem enqueue_err (st : RouterState) (w : Write) (st' : RouterState)
    (e : DmlError) (hsh : st.shards ≠ []) (h : enqueue st w = (st', .error e)) :
    e = .writeBuffer := by
  rw [enqueue] at h
  rcases shard_isSome st.shards w.tableName w.dbName hsh with ⟨k, hk⟩
  rw [hk] at h
  simp only [] at h
  by_cases hb : st.brokerUp = false
  · rw [if_pos hb] at h
    cases h
    rfl
  · rw [if_neg hb] at h
    cases h

theorem handle_conflict (st : RouterState) (w : Write) (c : String) (ty ty' : ColumnType)
    (hav : st.catalog.available = true) (hcache : cacheOk st)
    (hsch : alookup c (catalogSchema st.catalog w.dbName) = some ty)
    (hcol : (c, ty') ∈ writeColumns w) (hne : ty' ≠ ty) :
    (handle st w).2.1 = .error DmlError.schemaConflict
      ∧ (handle st w).1.queues = st.queues := by
  have hac2 := autocreate_ok_of_available st w hav
  have hac : autocreate st w = ((autocreate st w).1, .ok w) := Prod.ext rfl hac2
  rcases autocreate_shape st w (autocreate st w).1 (.ok w) hac with
    ⟨hc₁, hs₁, hq₁, hb₁, hsc₁, hav₁⟩
  have hav' : (autocreate st w).1.catalog.available = true := hav₁.trans hav
  have hsch' : alookup c (catalogSchema (autocreate st w).1.catalog w.dbName) = some ty := by
    unfold catalogSchema
    rw [hsc₁]
    exact hsch
  have hcache' : cacheOk (autocreate st w).1 := by
    intro n sch hn c₀ ty₀ hc₀
    unfold catalogSchema
    rw [hsc₁]
    rw [hc₁] at hn
    exact hcache n sch hn c₀ ty₀ hc₀
  have hval := validate_conflict (autocreate st w).1 w c ty ty' hav' hcache' hsch' hcol hne
  have hh := handle_eq_of_val_error st w (autocreate st w).1 (autocreate st w).1 w
    .schemaConflict hac hval
  rw [hh]
  exact ⟨rfl, hq₁⟩

/-- `C4` — Schema monotonicity: a column binding (name, type) committed in
the catalog for a namespace survives any write handled by the chain (columns
are only ever added, never removed or retyped), and any write to that
namespace asserting a different type for that column name is rejected with a
schema-conflict error (for any coherent cache state and reachable catalog). -/
theorem schema_monotonic (st : RouterState) (w : Write) (n c : String) (ty : ColumnType)
    (hsch : alookup c (catalogSchema st.catalog n) = some ty) :
    alookup c (catalogSchema (handle st w).1.catalog n) = some ty
    ∧ (∀ ty', ty' ≠ ty → w.dbName = n →
        (c, ty') ∈ writeColumns w → st.catalog.available = true → cacheOk st →
        (handle st w).2.1 = .error DmlError.schemaConflict) := by
  constructor
  · rcases hac : autocreate st w with ⟨st₁, r₁⟩
    rcases autocreate_shape st w st₁ r₁ hac with ⟨_, _, _, _, hsc₁, _⟩
    have hsch₁ : alookup c (catalogSchema st₁.catalog n) = some ty := by
      unfold catalogSchema
      rw [hsc₁]
      exact hsch
    cases r₁ with
    | error e =>
      rw [handle_eq_of_ac_error st w st₁ e hac]
      exact hsch₁
    | ok w₁ =>
      rcases hval : validate st₁ w₁ with ⟨st₂, r₂⟩
      have hsch₂ := validate_preserves_schema st₁ w₁ st₂ r₂ n c ty hval hsch₁
      cases r₂ with
      | error e =>
        rw [handle_eq_of_val_error st w st₁ st₂ w₁ e hac hval]
        exact hsch₂
      | ok w₂ =>
        rw [handle_eq_of_val_ok st w st₁ st₂ w₁ w₂ hac hval]
        rcases henq : enqueue st₂ w₂ with ⟨st₃, r₃⟩
        rcases enqueue_shape st₂ w₂ st₃ r₃ henq with ⟨hcat₃, _, _, _⟩
        simp only []
        unfold catalogSchema
        rw [hcat₃]
        exact hsch₂
  · intro ty' hne hdb hmem hav hcache
    subst hdb
    exact (handle_conflict st w c ty ty' hav hcache hsch hmem hne).1

/-- A reachable catalog that already knows namespace `db1`, its table `cpu`
and the committed column (extra, i64) — the example of spec §8. -/
def catUp : Catalog :=
  ⟨true, [("db1", 0)], [((0, "cpu"), 1)], [("db1", [("extra", ColumnType.i64)])], 2⟩

/-- A healthy router state over `catUp` with an empty schema cache. -/
def stUp : RouterState := ⟨catUp, [], [0, 1, 2], [], true⟩

/-- A write asserting `extra` as a string, conflicting with the committed
`extra:i64`. -/
def wConflict : Write := ⟨"db1", "cpu", [[("extra", ColumnType.string)]]⟩

/-- Witness for `C4`: the conflicting write of spec §8 is rejected with a
schema conflict. -/
theorem schema_monotonic_witness :
    (handle stUp wConflict).2.1 = .error DmlError.schemaConflict :=
  (schema_monotonic stUp wConflict "db1" "extra" ColumnType.i64 (by decide)).2
    ColumnType.string (by decide) rfl (by decide) (by decide)
    (by intro n sch hn; simp [alookup] at hn)

/-- `C5` — No partial row application: a write batch one of whose rows
asserts a type conflicting with the namespace's established schema is
rejected in its entirety with a schema-conflict error, and no row of the
batch is enqueued to any shard (the per-shard queues are untouched). -/
theorem batch_rejected_whole (st : RouterState) (w : Write)
    (row : List (String × ColumnType)) (c : String) (ty ty' : ColumnType)
    (hav : st.catalog.available = true) (hcache : cacheOk st)
    (hsch : alookup c (catalogSchema st.catalog w.dbName) = some ty)
    (hrow : row ∈ w.rows) (hcol : (c, ty') ∈ row) (hne : ty' ≠ ty) :
    (handle st w).2.1 = .error DmlError.schemaConflict
      ∧ (handle st w).1.queues = st.queues :=
  handle_conflict st w c ty ty' hav hcache hsch
    ((mem_writeColumns w (c, ty')).mpr ⟨row, hrow, hcol⟩) hne

/-- A two-row batch whose second row conflicts with the committed
`extra:i64`. -/
def wBatch : Write :=
  ⟨"db1", "cpu", [[("temp", ColumnType.f64)], [("extra", ColumnType.string)]]⟩

/-- Witness for `C5`: the whole two-row batch is rejected and the queues are
unchanged. -/
theorem batch_rejected_whole_witness :
    (handle stUp wBatch).2.1 = .error DmlError.schemaConflict
      ∧ (handle stUp wBatch).1.queues = stUp.queues :=
  batch_rejected_whole stUp wBatch [("extra", ColumnType.string)] "extra"
    ColumnType.i64 ColumnType.string (by decide)
    (by intro n sch hn; simp [alookup] at hn) (by decide) (by decide) (by decide) (by decide)

theorem initWriteBuffer_ok (cfg : StartupConfig) (shards : List Nat)
    (h : initWriteBuffer cfg = .ok shards) :
    shards = sortedShards cfg.partitions ∧ shards ≠ [] := by
  by_cases hemp : (sortedShards cfg.partitions).isEmpty
  · simp [initWriteBuffer, hemp] at h
  · simp [initWriteBuffer, hemp] at h
    refine ⟨h.symm, ?_⟩
    intro hnil
    rw [hnil] at h
    apply hemp
    rw [h]
    rfl

theorem handle_no_noShards (st : RouterState) (w : Write) (hsh : st.shards ≠ []) :
    (handle st w).2.1 ≠ .error DmlError.noShards
      ∧ (handle st w).1.shards = st.shards := by
  rcases hac : autocreate st w with ⟨st₁, r₁⟩
  rcases autocreate_shape st w st₁ r₁ hac with ⟨_, hs₁, _, _, _, _⟩
  cases r₁ with
  | error e =>
    rw [handle_eq_of_ac_error st w st₁ e hac]
    have hek := autocreate_error_kind st w st₁ e hac
    subst hek
    exact ⟨(by intro hc; cases hc), hs₁⟩
  | ok w₁ =>
    rcases hval : validate st₁ w₁ with ⟨st₂, r₂⟩
    rcases validate_shape st₁ w₁ st₂ r₂ hval with ⟨hs₂, _, _, _⟩
    cases r₂ with
    | error e =>
      rw [handle_eq_of_val_error st w st₁ st₂ w₁ e hac hval]
      rcases validate_err st₁ w₁ st₂ e hval with ⟨_, hk | hk⟩
      · subst hk
        exact ⟨(by intro hc; cases hc), hs₂.trans hs₁⟩
      · rcases hk with ⟨hk, _⟩
        subst hk
        exact ⟨(by intro hc; cases hc), hs₂.trans hs₁⟩
    | ok w₂ =>
      rw [handle_eq_of_val_ok st w st₁ st₂ w₁ w₂ hac hval]
      have hs₂' : st₂.shards ≠ [] := by
        rw [hs₂, hs₁]
        exact hsh
      rcases henq : enqueue st₂ w₂ with ⟨st₃, r₃⟩
      rcases enqueue_shape st₂ w₂ st₃ r₃ henq with ⟨_, _, hs₃, _⟩
      constructor
      · simp only []
        intro hc
        rw [hc] at henq
        have := enqueue_err st₂ w₂ st₃ DmlError.noShards hs₂' henq
        cases this
      · simp only []
        exact hs₃.trans (hs₂.trans hs₁)

/-- Embeds the startup sequence of `command` (`router2.rs` lines 75-137): the
write buffer / shard registry is initialised first (lines 88-93); the kafka
topic is then looked up in the catalog and a missing topic aborts startup
(the panic at lines 110-115, modelled as a startup error).  On success the
router serves with the fixed registry over the connected catalog. -/
def startup (cfg : StartupConfig) (cat : Catalog) : Except StartupError RouterState :=
  match initWriteBuffer cfg with
  | .error e => .error e
  | .ok shards =>
    match cfg.topicId with
    | none => .error .unknownTopic
    | some _ => .ok ⟨cat, [], shards, [], true⟩

/-- `C8` — Fail-fast startup: a topic with no partitions (an undefined shard
registry) or a topic unknown to the catalog makes the router fail at startup
and never serve; any router that did start has a non-empty registry, and over
a non-empty registry no per-write handling ever surfaces a shard-configuration
error (the registry also never changes at runtime). -/
theorem startup_fail_fast (cfg : StartupConfig) (cat : Catalog) :
    (cfg.partitions = [] → startup cfg cat = .error StartupError.noPartitions)
    ∧ (cfg.topicId = none → ∀ st, startup cfg cat ≠ .ok st)
    ∧ (∀ st, startup cfg cat = .ok st → st.shards ≠ [])
    ∧ (∀ st w, st.shards ≠ [] →
        (handle st w).2.1 ≠ .error DmlError.noShards
          ∧ (handle st w).1.shards = st.shards) := by
  refine ⟨?_, ?_, ?_, ?_⟩
  · intro hp
    have hi : initWriteBuffer cfg = .error .noPartitions := by
      rw [initWriteBuffer, hp]
      rfl
    rw [startup, hi]
  · intro ht st
    rw [startup]
    cases hi : initWriteBuffer cfg with
    | error e =>
      intro hc
      cases hc
    | ok shards =>
      rw [ht]
      intro hc
      cases hc
  · intro st hok
    rw [startup] at hok
    cases hi : initWriteBuffer cfg with
    | error e =>
      rw [hi] at hok
      cases hok
    | ok shards =>
      rw [hi] at hok
      simp only [] at hok
      cases ht : cfg.topicId with
      | none =>
        rw [ht] at hok
        cases hok
      | some i =>
        rw [ht] at hok
        simp only [] at hok
        cases hok
        exact (initWriteBuffer_ok cfg shards hi).2
  · intro st w hsh
    exact handle_no_noShards st w hsh

/-- Witness for `C8`: a topic with no partitions fails startup with the
no-partitions error. -/
theorem startup_fail_fast_witness :
    startup ⟨some 1, []⟩ catUp = .error StartupError.noPartitions :=
  (startup_fail_fast ⟨some 1, []⟩ catUp).1 rfl

/-- Modelled from the spec (§4.2 stage 1): one in-flight auto-creation call —
the namespace get-or-create followed by the table get-or-create — with the
identities it has observed so far. -/
structure AcTask where
  ns : String
  tbl : String
  nsId : Option Nat
  tblId : Option Nat
  failed : Bool
deriving DecidableEq

/-- An auto-creation call that has not started yet. -/
def AcTask.fresh (n t : String) : AcTask := ⟨n, t, none, none, false⟩

/-- One atomic step of an auto-creation call against the shared catalog
(spec §5: catalog calls are the only suspension points and are atomic as
observed externally).  A completed or failed call steps to itself. -/
def stepTask (c : Catalog) (tk : AcTask) : Catalog × AcTask :=
  if tk.failed then (c, tk)
  else
    match tk.nsId with
    | none =>
      match getOrCreateNamespace c tk.ns with
      | .error _ => (c, { tk with failed := true })
      | .ok (i, c') => (c', { tk with nsId := some i })
    | some i =>
      match tk.tblId with
      | none =>
        match getOrCreateTable c i tk.tbl with
        | .error _ => (c, { tk with failed := true })
        | .ok (j, c') => (c', { tk with tblId := some j })
      | some _ => (c, tk)

/-- Run two interleaved auto-creation calls under a schedule: `true` steps the
first call, `false` the second (spec §8: concurrent calls simulated with
interleaved execution). -/
def runSched : List Bool → Catalog × AcTask × AcTask → Catalog × AcTask × AcTask
  | [], s => s
  | true :: rest, (c, a, b) => runSched rest ((stepTask c a).1, (stepTask c a).2, b)
  | false :: rest, (c, a, b) => runSched rest ((stepTask c b).1, a, (stepTask c b).2)

/-- Two interleaved auto-creation calls for the same names, both fresh. -/
def acRace (c : Catalog) (n t : String) (s : List Bool) : Catalog × AcTask × AcTask :=
  runSched s (c, AcTask.fresh n t, AcTask.fresh n t)

/-- The consistency invariant of one auto-creation call: any identity it has
observed is the one the shared catalog currently binds for its names. -/
def TaskInv (c : Catalog) (n t : String) (tk : AcTask) : Prop :=
  tk.ns = n ∧ tk.tbl = t ∧ tk.failed = false
  ∧ (∀ i, tk.nsId = some i → alookup n c.namespaces = some i)
  ∧ (∀ j, tk.tblId = some j → ∃ i, tk.nsId = some i ∧ alookup (i, t) c.tables = some j)

/-- How far an auto-creation call has got (0, 1 or 2 catalog calls done). -/
def progress (tk : AcTask) : Nat :=
  if tk.tblId.isSome then 2 else if tk.nsId.isSome then 1 else 0

theorem stepTask_persist (c : Catalog) (tk : AcTask) :
    (stepTask c tk).1.available = c.available
    ∧ (∀ k v, alookup k c.namespaces = some v →
        alookup k (stepTask c tk).1.namespaces = some v)
    ∧ (∀ k v, alookup k c.tables = some v →
        alookup k (stepTask c tk).1.tables = some v) := by
  rw [stepTask]
  by_cases hf : tk.failed = true
  · rw [if_pos hf]
    exact ⟨rfl, fun k v h => h, fun k v h => h⟩
  · rw [if_neg hf]
    cases hns : tk.nsId with
    | none =>
      simp only []
      cases hg : getOrCreateNamespace c tk.ns with
      | error e =>
        simp only []
        exact ⟨trivial, fun k v h => h, fun k v h => h⟩
      | ok p =>
        rcases p with ⟨i, c'⟩
        simp only []
        rcases getOrCreateNamespace_ok c tk.ns i c' hg with ⟨hav, _, htab, _, hpers⟩
        exact ⟨hav, hpers, fun k v h => by rw [htab]; exact h⟩
    | some i =>
      simp only []
      cases htb : tk.tblId with
      | none =>
        simp only []
        cases hg : getOrCreateTable c i tk.tbl with
        | error e =>
          simp only []
          exact ⟨trivial, fun k v h => h, fun k v h => h⟩
        | ok p =>
          rcases p with ⟨j, c'⟩
          simp only []
          rcases getOrCreateTable_ok c i tk.tbl j c' hg with ⟨hav, _, hnsp, _, hpers⟩
          exact ⟨hav, fun k v h => by rw [hnsp]; exact h, hpers⟩
      | some j =>
        simp only []
        exact ⟨trivial, fun k v h => h, fun k v h => h⟩

theorem stepTask_other (c : Catalog) (n t : String) (tk other : AcTask)
    (hinv : TaskInv c n t other) : TaskInv (stepTask c tk).1 n t other := by
  rcases hinv with ⟨h1, h2, h3, h4, h5⟩
  rcases stepTask_persist c tk with ⟨_, hns, htb⟩
  exact ⟨h1, h2, h3, fun i hi => hns _ _ (h4 i hi),
    fun j hj => (h5 j hj).elim fun i hi => ⟨i, hi.1, htb _ _ hi.2⟩⟩

theorem stepTask_self (c : Catalog) (n t : String) (tk : AcTask)
    (hav : c.available = true) (hinv : TaskInv c n t tk) :
    TaskInv (stepTask c tk).1 n t (stepTask c tk).2
    ∧ min 2 (progress tk + 1) ≤ progress (stepTask c tk).2 := by
  rcases hinv with ⟨h1, h2, h3, h4, h5⟩
  rw [stepTask]
  have hf : ¬(tk.failed = true) := by
    rw [h3]
    exact Bool.false_ne_true
  rw [if_neg hf]
  cases hns : tk.nsId with
  | none =>
    simp only []
    have htb : tk.tblId = none := by
      cases htb : tk.tblId with
      | none => rfl
      | some j =>
        rcases h5 j htb with ⟨i, hi, _⟩
        rw [hns] at hi
        cases hi
    cases hg : getOrCreateNamespace c tk.ns with
    | error e =>
      exfalso
      have h := (getOrCreateNamespace_err _ _ _ hg).2
      rw [hav] at h
      cases h
    | ok p =>
      rcases p with ⟨i, c'⟩
      simp only []
      rcases getOrCreateNamespace_ok c tk.ns i c' hg with ⟨_, _, _, hbind, _⟩
      constructor
      · refine ⟨h1, h2, h3, ?_, ?_⟩
        · intro i' hi'
          injection hi' with hii
          subst hii
          rw [← h1]
          exact hbind
        · intro j hj
          rw [htb] at hj
          cases hj
      · have hp1 : progress tk = 0 := by simp [progress, htb, hns]
        have hp2 : progress { tk with nsId := some i } = 1 := by simp [progress, htb]
        rw [hp1, hp2]
        decide
  | some i =>
    simp only []
    cases htb : tk.tblId with
    | some j =>
      simp only []
      constructor
      · exact ⟨h1, h2, h3, h4, h5⟩
      · have hp : progress tk = 2 := by simp [progress, htb]
        rw [hp]
        decide
    | none =>
      simp only []
      cases hg : getOrCreateTable c i tk.tbl with
      | error e =>
        exfalso
        have h := (getOrCreateTable_err _ _ _ _ hg).2
        rw [hav] at h
        cases h
      | ok p =>
        rcases p with ⟨j, c'⟩
        simp only []
        rcases getOrCreateTable_ok c i tk.tbl j c' hg with ⟨_, _, hnsp, hbind, _⟩
        constructor
        · refine ⟨h1, h2, h3, ?_, ?_⟩
          · intro i' hi'
            injection hi' with hii
            subst hii
            show alookup n c'.namespaces = some i
            rw [hnsp]
            exact h4 i hns
          · intro j' hj'
            injection hj' with hjj
            subst hjj
            refine ⟨i, rfl, ?_⟩
            rw [← h2]
            exact hbind
        · have hp1 : progress tk = 1 := by simp [progress, htb, hns]
          have hp2 : progress
              { ns := tk.ns, tbl := tk.tbl, nsId := some i, tblId := some j,
                failed := tk.failed } = 2 := by simp [progress]
          rw [hp1, hp2]
          decide

/-- How many steps a schedule gives the first call. -/
def countTrue : List Bool → Nat
  | [] => 0
  | true :: rest => countTrue rest + 1
  | false :: rest => countTrue rest

/-- How many steps a schedule gives the second call. -/
def countFalse : List Bool → Nat
  | [] => 0
  | true :: rest => countFalse rest
  | false :: rest => countFalse rest + 1

theorem runSched_inv (s : List Bool) (c : Catalog) (n t : String) (a b : AcTask)
    (hav : c.available = true) (ha : TaskInv c n t a) (hb : TaskInv c n t b) :
    (runSched s (c, a, b)).1.available = true
    ∧ TaskInv (runSched s (c, a, b)).1 n t (runSched s (c, a, b)).2.1
    ∧ TaskInv (runSched s (c, a, b)).1 n t (runSched s (c, a, b)).2.2
    ∧ min 2 (progress a + countTrue s) ≤ progress (runSched s (c, a, b)).2.1
    ∧ min 2 (progress b + countFalse s) ≤ progress (runSched s (c, a, b)).2.2 := by
  induction s generalizing c a b with
  | nil =>
    refine ⟨hav, ha, hb, ?_, ?_⟩
    · show min 2 (progress a + 0) ≤ progress a
      omega
    · show min 2 (progress b + 0) ≤ progress b
      omega
  | cons x rest ih =>
    cases x with
    | true =>
      have hstep := stepTask_self c n t a hav ha
      have hpers := stepTask_persist c a
      have hav' : (stepTask c a).1.available = true := hpers.1.trans hav
      have hb' : TaskInv (stepTask c a).1 n t b := stepTask_other c n t a b hb
      have ih' := ih (stepTask c a).1 (stepTask c a).2 b hav' hstep.1 hb'
      refine ⟨ih'.1, ih'.2.1, ih'.2.2.1, ?_, ?_⟩
      · have hr := ih'.2.2.2.1
        have hs := hstep.2
        show min 2 (progress a + (countTrue rest + 1))
          ≤ progress (runSched rest ((stepTask c a).1, (stepTask c a).2, b)).2.1
        omega
      · have hr := ih'.2.2.2.2
        show min 2 (progress b + countFalse rest)
          ≤ progress (runSched rest ((stepTask c a).1, (stepTask c a).2, b)).2.2
        exact hr
    | false =>
      have hstep := stepTask_self c n t b hav hb
      have hpers := stepTask_persist c b
      have hav' : (stepTask c b).1.available = true := hpers.1.trans hav
      have ha' : TaskInv (stepTask c b).1 n t a := stepTask_other c n t b a ha
      have ih' := ih (stepTask c b).1 a (stepTask c b).2 hav' ha' hstep.1
      refine ⟨ih'.1, ih'.2.1, ih'.2.2.1, ?_, ?_⟩
      · have hr := ih'.2.2.2.1
        show min 2 (progress a + countTrue rest)
          ≤ progress (runSched rest ((stepTask c b).1, a, (stepTask c b).2)).2.1
        exact hr
      · have hr := ih'.2.2.2.2
        have hs := hstep.2
        show min 2 (progress b + (countFalse rest + 1))
          ≤ progress (runSched rest ((stepTask c b).1, a, (stepTask c b).2)).2.2
        omega

theorem progress_two (tk : AcTask) (h : 2 ≤ progress tk) : tk.tblId.isSome = true := by
  cases hb : tk.tblId.isSome with
  | true => rfl
  | false =>
    exfalso
    rw [progress, hb] at h
    simp at h
    by_cases hn : tk.nsId.isSome = true
    · rw [if_pos hn] at h
      omega
    · rw [if_neg hn] at h
      omega

/-- `C7` — Idempotent auto-creation: under every interleaving of two
auto-creation calls for the same namespace and table names against an
available catalog, neither call fails, the namespace identities and the table
identities the two calls observe coincide (the catalog's get-or-create
arbitrates the race), and a call scheduled at least twice completes both
creations; in particular a second identical call observes the same
identities as the first. -/
theorem autocreation_idempotent (c : Catalog) (n t : String) (s : List Bool)
    (hav : c.available = true) :
    (acRace c n t s).2.1.failed = false
    ∧ (acRace c n t s).2.2.failed = false
    ∧ (∀ i j, (acRace c n t s).2.1.nsId = some i →
        (acRace c n t s).2.2.nsId = some j → i = j)
    ∧ (∀ i j, (acRace c n t s).2.1.tblId = some i →
        (acRace c n t s).2.2.tblId = some j → i = j)
    ∧ (2 ≤ countTrue s → (acRace c n t s).2.1.tblId.isSome = true)
    ∧ (2 ≤ countFalse s → (acRace c n t s).2.2.tblId.isSome = true) := by
  have hfresh : TaskInv c n t (AcTask.fresh n t) :=
    ⟨rfl, rfl, rfl, (by intro i hi; cases hi), (by intro j hj; cases hj)⟩
  have H := runSched_inv s c n t (AcTask.fresh n t) (AcTask.fresh n t) hav hfresh hfresh
  rcases H with ⟨havf, hA, hB, hpA, hpB⟩
  refine ⟨hA.2.2.1, hB.2.2.1, ?_, ?_, ?_, ?_⟩
  · intro i j hi hj
    have ha := hA.2.2.2.1 i hi
    have hb := hB.2.2.2.1 j hj
    rw [ha] at hb
    injection hb
  · intro i j hi hj
    rcases hA.2.2.2.2 i hi with ⟨ia, hia, hta⟩
    rcases hB.2.2.2.2 j hj with ⟨ib, hib, htb⟩
    have hns : ia = ib := by
      have ha := hA.2.2.2.1 ia hia
      have hb := hB.2.2.2.1 ib hib
      rw [ha] at hb
      injection hb
    subst hns
    rw [hta] at htb
    injection htb
  · intro hcnt
    have hfr : progress (AcTask.fresh n t) = 0 := rfl
    rw [hfr] at hpA
    have h2 : 2 ≤ progress (runSched s (c, AcTask.fresh n t, AcTask.fresh n t)).2.1 := by
      omega
    exact progress_two _ h2
  · intro hcnt
    have hfr : progress (AcTask.fresh n t) = 0 := rfl
    rw [hfr] at hpB
    have h2 : 2 ≤ progress (runSched s (c, AcTask.fresh n t, AcTask.fresh n t)).2.2 := by
      omega
    exact progress_two _ h2

/-- Witness for `C7`: an alternating interleaving of two auto-creation calls
over a fresh, available catalog completes both calls with one shared table
identity. -/
theorem autocreation_idempotent_witness :
    (acRace ⟨true, [], [], [], 0⟩ "db1" "cpu" [true, false, true, false]).2.1.tblId.isSome
      = true :=
  (autocreation_idempotent ⟨true, [], [], [], 0⟩ "db1" "cpu"
    [true, false, true, false] rfl).2.2.2.2.1 (by decide)

/-- Embeds `object_store::ObjectMeta` as the garbage-collection checker
consumes it (`iox_objectstore_garbage_collect/src/checker.rs`): the path
segments of the object's location and its last-modified instant (modelled as
an integer; the checker only compares instants).  The `size` field is unused
by the checker and omitted. -/
structure ObjectMeta where
  locationParts : List String
  lastModified : Int
deriving DecidableEq

/-- The errors `should_delete` itself can produce (`checker.rs` lines 16-27). -/
inductive CheckerError
  | fileNameMissing
  | getFile
deriving DecidableEq

/-- Models the catalog's parquet-file repository as the checker consumes it
(`iox_catalog::interface::ParquetFileRepo`, not under `src/`): the set of
object-store ids with a committed parquet file, plus reachability. -/
structure ParquetRepo where
  reachable : Bool
  ids : List String
deriving DecidableEq

/-- Models `ParquetFileRepo::get_by_object_store_id`: a lookup that fails with
an infrastructure error when the catalog is unreachable. -/
def getByObjectStoreId (repo : ParquetRepo) (u : String) :
    Except CheckerError (Option String) :=
  if repo.reachable = false then .error .getFile
  else if u ∈ repo.ids then .ok (some u) else .ok none

/-- A hexadecimal digit. -/
def isHexDigit (ch : Char) : Bool :=
  (decide ('0' ≤ ch) && decide (ch ≤ '9'))
    || (decide ('a' ≤ ch) && decide (ch ≤ 'f'))
    || (decide ('A' ≤ ch) && decide (ch ≤ 'F'))

/-- Models `uuid::Uuid::from_str` (external crate) on the hyphenated format
the object store paths use: 36 characters, hyphens at positions 8, 13, 18 and
23, hexadecimal digits elsewhere; the parsed value is the lower-cased
string. -/
def parseUuid (s : String) : Option String :=
  if (s.data.length == 36)
      && (List.range 36).all (fun i =>
        if (i == 8) || (i == 13) || (i == 18) || (i == 23) then
          s.data.getD i ' ' == '-'
        else isHexDigit (s.data.getD i ' '))
  then some (String.mk (s.data.map Char.toLower))
  else none

/-- Models `str::strip_suffix(".parquet")` (8 characters). -/
def stripParquetSuffix (s : String) : Option String :=
  if s.endsWith ".parquet" then some (s.dropRight 8) else none

/-- Embeds `should_delete` (`checker.rs` lines 56-115): an object newer than
the cutoff is never deleted; otherwise the object is kept exactly when its
file name is a parquet file whose stem is a uuid the catalog still
references, and deleted in every other case. -/
def should_delete (item : ObjectMeta) (cutoff : Int) (repo : ParquetRepo) :
    Except CheckerError Bool :=
  if cutoff < item.lastModified then .ok false
  else
    match item.locationParts.getLast? with
    | none => .error .fileNameMissing
    | some fileName =>
      match stripParquetSuffix fileName with
      | none => .ok true
      | some stem =>
        match parseUuid stem with
        | none => .ok true
        | some uuid =>
          match getByObjectStoreId repo uuid with
          | .error e => .error e
          | .ok (some _) => .ok false
          | .ok none => .ok true

/-- `C9` — The GC checker returns false for every object strictly newer than
the cutoff, regardless of file name or catalog state; for an object not newer
than the cutoff (with a file name, over a reachable catalog) it returns false
exactly when the file name ends in `.parquet`, the stem parses as a valid
uuid and the catalog contains a parquet file with that object-store id, and
true in every other case. -/
theorem should_delete_spec (item : ObjectMeta) (cutoff : Int) (repo : ParquetRepo) :
    (cutoff < item.lastModified → should_delete item cutoff repo = .ok false)
    ∧ (¬cutoff < item.lastModified → item.locationParts ≠ [] → repo.reachable = true →
        ∃ b, should_delete item cutoff repo = .ok b
          ∧ (b = false ↔ ∃ fileName stem uuid,
              item.locationParts.getLast? = some fileName
              ∧ stripParquetSuffix fileName = some stem
              ∧ parseUuid stem = some uuid ∧ uuid ∈ repo.ids)) := by
  constructor
  · intro hnew
    rw [should_delete, if_pos hnew]
  · intro hold hne hreach
    rw [should_delete, if_neg hold]
    cases hl : item.locationParts.getLast? with
    | none =>
      exfalso
      exact hne (by simpa [List.getLast?_eq_none_iff] using hl)
    | some fileName =>
      simp only []
      cases hstrip : stripParquetSuffix fileName with
      | none =>
        refine ⟨true, rfl, ?_⟩
        constructor
        · intro hc
          cases hc
        · rintro ⟨fn, stem, uuid, hfn, hs, _, _⟩
          have hfn' := Option.some.inj hfn
          subst hfn'
          rw [hstrip] at hs
          cases hs
      | some stem =>
        simp only []
        cases hparse : parseUuid stem with
        | none =>
          refine ⟨true, rfl, ?_⟩
          constructor
          · intro hc
            cases hc
          · rintro ⟨fn, stem', uuid, hfn, hs, hp, _⟩
            have hfn' := Option.some.inj hfn
            subst hfn'
            rw [hstrip] at hs
            have hs' := Option.some.inj hs
            subst hs'
            rw [hparse] at hp
            cases hp
        | some uuid =>
          simp only []
          rw [getByObjectStoreId]
          have hnr : ¬(repo.reachable = false) := by
            rw [hreach]
            intro hc
            cases hc
          rw [if_neg hnr]
          by_cases hmem : uuid ∈ repo.ids
          · rw [if_pos hmem]
            refine ⟨false, rfl, ?_⟩
            constructor
            · intro _
              exact ⟨fileName, stem, uuid, rfl, hstrip, hparse, hmem⟩
            · intro _
              rfl
          · rw [if_neg hmem]
            refine ⟨true, rfl, ?_⟩
            constructor
            · intro hc
              cases hc
            · rintro ⟨fn, stem', uuid', hfn, hs, hp, hm⟩
              have hfn' := Option.some.inj hfn
              subst hfn'
              rw [hstrip] at hs
              have hs' := Option.some.inj hs
              subst hs'
              rw [hparse] at hp
              have hp' := Option.some.inj hp
              subst hp'
              exact absurd hm hmem

/-- Witness for `C9`: an object newer than the cutoff is kept even over an
empty catalog. -/
theorem should_delete_spec_witness :
    should_delete ⟨["1", "2", "4", "a.parquet"], 5⟩ 3 ⟨true, []⟩ = .ok false :=
  (should_delete_spec ⟨["1", "2", "4", "a.parquet"], 5⟩ 3 ⟨true, []⟩).1 (by decide)

/-- Embeds `arrow_flight::HandshakeRequest` (the fields the handshake uses);
the payload is a byte sequence. -/
structure HandshakeRequest where
  protocolVersion : Nat
  payload : List Nat
deriving DecidableEq

/-- Embeds `arrow_flight::HandshakeResponse`. -/
structure HandshakeResponse where
  protocolVersion : Nat
  payload : List Nat
deriving DecidableEq

/-- Embeds the ingester's `FlightService::handshake`
(`ingester/src/server/grpc.rs` lines 67-78): take the first message of the
request stream (`none` models the panic of the `.unwrap()` on an empty
stream) and reply with exactly one response echoing the request's protocol
version and payload. -/
def serverHandshake (requests : List HandshakeRequest) :
    Option (List HandshakeResponse) :=
  match requests with
  | [] => none
  | r :: _ => some [⟨r.protocolVersion, r.payload⟩]

/-- The flight client's error taxonomy (`ingester/src/flight.rs` lines
10-20). -/
inductive FlightError
  | grpcError
  | handshakeFailed
deriving DecidableEq

/-- Embeds the flight client's `Client::handshake` (`ingester/src/flight.rs`
lines 62-82) against an abstract server: send one request with protocol
version 0 and the given payload (drawn at random in the source); fail with
`handshakeFailed` when the response stream is empty or the first response's
payload differs from the payload sent. -/
def clientHandshake
    (server : List HandshakeRequest → Option (List HandshakeResponse))
    (payload : List Nat) : Except FlightError Unit :=
  match server [⟨0, payload⟩] with
  | none => .error .grpcError
  | some responses =>
    match responses.head? with
    | none => .error .handshakeFailed
    | some resp => if resp.payload = payload then .ok () else .error .handshakeFailed

/-- `C10` — Arrow Flight handshake round trip: the server replies with exactly
one response whose protocol version and payload equal those of the first
request message; the client accepts exactly when the first response's payload
equals the payload it sent and otherwise fails with `handshakeFailed`; hence
the client handshake against this server always succeeds. -/
theorem handshake_roundtrip :
    (∀ r rest, serverHandshake (r :: rest) = some [⟨r.protocolVersion, r.payload⟩])
    ∧ (∀ server responses payload, server [⟨0, payload⟩] = some responses →
        (clientHandshake server payload = .ok () ↔
          ∃ resp, responses.head? = some resp ∧ resp.payload = payload)
        ∧ (clientHandshake server payload ≠ .ok () →
            clientHandshake server payload = .error .handshakeFailed))
    ∧ (∀ payload, clientHandshake serverHandshake payload = .ok ()) := by
  refine ⟨fun r rest => rfl, ?_, ?_⟩
  · intro server responses payload hsrv
    rw [clientHandshake, hsrv]
    cases hh : responses.head? with
    | none =>
      simp only []
      rw [hh]
      constructor
      · constructor
        · intro hc
          cases hc
        · rintro ⟨resp, hr, _⟩
          cases hr
      · intro _
        rfl
    | some resp =>
      simp only []
      rw [hh]
      simp only []
      by_cases hp : resp.payload = payload
      · rw [if_pos hp]
        constructor
        · constructor
          · intro _
            exact ⟨resp, rfl, hp⟩
          · intro _
            rfl
        · intro hc
          exact absurd rfl hc
      · rw [if_neg hp]
        constructor
        · constructor
          · intro hc
            cases hc
          · rintro ⟨resp', hr, hpay⟩
            have := Option.some.inj hr
            subst this
            exact absurd hpay hp
        · intro _
          rfl
  · intro payload
    rw [clientHandshake]
    have hsrv : serverHandshake [⟨0, payload⟩]
        = some [⟨0, payload⟩] := rfl
    rw [hsrv]
    simp [List.head?]

/-- Witness for `C10`: a concrete client payload round-trips through the
echo server and the client-side acceptance test is exactly the
first-response payload equality. -/
theorem handshake_roundtrip_witness :
    clientHandshake serverHandshake [3, 1, 4] = .ok ()
      ↔ ∃ resp, ([⟨0, [3, 1, 4]⟩] : List HandshakeResponse).head? = some resp
          ∧ resp.payload = [3, 1, 4] :=
  (handshake_roundtrip.2.1 serverHandshake [⟨0, [3, 1, 4]⟩] [3, 1, 4] (by decide)).1
